import Mathlib

set_option maxRecDepth 8000

/-! Shallow embedding of the open-pathology repository: the aggregation
pipeline of `analysis/write_processed_csv_files.py` (deciles, demographic
breakdown, event counts and top-5 code proportions) and the presentation
pipeline of `app/measures.py` (deciles re-labeling/rescaling and the
measure repository).  Pandas dataframes are modelled as lists of records,
pandas string methods as structural functions on `List Char`, event counts
as `ℕ`, dates as `ℤ`, and ratios as `ℚ` with `Option` for NaN. -/

/- ---------------- string primitives (pandas/python semantics) ---------- -/

/-- Whitespace test used by Python `str.strip`. -/
def wsChar (c : Char) : Bool := c == ' ' || c == '\t' || c == '\n' || c == '\r'

/-- Python `str.strip`: remove leading and trailing whitespace. -/
def pyStrip (s : String) : String :=
  ⟨((s.data.dropWhile wsChar).reverse.dropWhile wsChar).reverse⟩

/-- Python `str.lower` (ASCII lowering, as applied to the IMD labels). -/
def pyLower (s : String) : String := ⟨s.data.map Char.toLower⟩

/-- `hay` starts with `needle`, at the character-list level. -/
def chStarts : List Char → List Char → Bool
  | _, [] => true
  | [], _ :: _ => false
  | a :: l, b :: m => a == b && chStarts l m

/-- Python substring test `needle in hay`, at the character-list level. -/
def chContains : List Char → List Char → Bool
  | [], needle => chStarts [] needle
  | a :: t, needle => chStarts (a :: t) needle || chContains t needle

/-- Python `str.startswith`. -/
def pyStarts (s pat : String) : Bool := chStarts s.data pat.data

/-- Python membership test `needle in hay` on strings. -/
def pyIn (needle hay : String) : Bool := chContains hay.data needle.data

/- ---------------- data model ------------------------------------------ -/

/-- One row of the canonical measures table (`measures.arrow`): the input to
`get_demographic_table`, `get_deciles_table` and
`get_event_counts_and_top_5_codes_tables`. -/
structure MRow where
  measure : String
  interval_start : ℤ
  numerator : ℕ
  denominator : ℕ
  ratio : Option ℚ
  snomedct_code : String
  practice : Option ℤ
  IMD : Option String
  ethnicity : Option String
  sex : Option String
  region : Option String
deriving DecidableEq

/-- A blank row, used to build concrete rows by structure update. -/
def row0 : MRow := ⟨"", 0, 0, 0, none, "", none, none, none, none, none⟩

/- ---------------- DemographicAggregator (get_demographic_table) -------- -/

/-- The demographic strata recognised by `get_demographic_table`. -/
def demograph_strata : List String := ["by_IMD", "by_ethnicity", "by_sex", "by_region"]

/-- The mask `df["IMD"].fillna("").astype(str).str.strip().str.lower().eq("unknown")`
applied to one row's IMD value. -/
def imdUnknown (imd : Option String) : Bool :=
  pyLower (pyStrip (imd.getD "")) == "unknown"

/-- The columns retained by `get_demographic_table`. -/
structure DemogRow where
  measure : String
  interval_start : ℤ
  ratio : Option ℚ
  numerator : ℕ
  denominator : ℕ
  IMD : Option String
  ethnicity : Option String
  sex : Option String
  region : Option String
deriving DecidableEq

/-- Column projection performed at the end of `get_demographic_table`. -/
def demogProj (r : MRow) : DemogRow :=
  ⟨r.measure, r.interval_start, r.ratio, r.numerator, r.denominator,
   r.IMD, r.ethnicity, r.sex, r.region⟩

/-- `get_demographic_table`: keep rows whose `measure` is in the demographic
strata, then remove rows with `measure == "by_IMD"` whose IMD value is
"unknown" after fillna/strip/lower, then project the retained columns. -/
def get_demographic_table (rows : List MRow) : List DemogRow :=
  let df := rows.filter (fun r => demograph_strata.contains r.measure)
  let df := df.filter (fun r => !(r.measure == "by_IMD" && imdUnknown r.IMD))
  df.map demogProj

/- ---------------- EventCodeAggregator: proportion clamps --------------- -/

/-- One row of the per-code table `df_code_counts`: code, summed event
count, optional description from the left join onto the codelist, and the
proportion string `Proportion of codes (%)`. -/
structure CodeRow where
  code : String
  events : ℕ
  description : Option String
  prop : String
deriving DecidableEq

/-- `str.replace("0", "")` applied to a proportion string: every occurrence
of the character `0` is removed. -/
def stripZeros (s : String) : String := ⟨s.data.filter (fun c => !(c == '0'))⟩

/-- The mask `df["Proportion of codes (%)"].str.replace("0", "") == "."`. -/
def isDotPattern (s : String) : Bool := stripZeros s == "."

/-- First masked assignment: an apparent-zero proportion becomes `"< 0.005"`. -/
def clampLow (s : String) : String := if isDotPattern s then "< 0.005" else s

/-- Second masked assignment: a proportion starting `"100."` becomes `"> 99.995"`. -/
def clampHigh (s : String) : String := if pyStarts s "100." then "> 99.995" else s

/-- The formatting-tweaks block of `get_event_counts_and_top_5_codes_tables`:
the two masked assignments run in order, guarded by `len(df_code_counts) > 1`. -/
def applyClamps (t : List CodeRow) : List CodeRow :=
  if 1 < t.length then
    (t.map (fun r => { r with prop := clampLow r.prop })).map
      (fun r => { r with prop := clampHigh r.prop })
  else t

/- ---------------- theorems: C5 and C10 -------------------------------- -/

/-- C5: a row appears in the demographic table exactly when its measure is
one of the demographic strata and it is not a `by_IMD` row whose IMD value,
after trimming whitespace and lower-casing (with null treated as the empty
string), equals "unknown"; the unknown-IMD filter is scoped to the `by_IMD`
stratum only. -/
theorem claim_C5_imd_filter_scoped (rows : List MRow) (x : DemogRow) :
    x ∈ get_demographic_table rows ↔
      ∃ r ∈ rows, r.measure ∈ demograph_strata ∧
        ¬(r.measure = "by_IMD" ∧ pyLower (pyStrip (r.IMD.getD "")) = "unknown") ∧
        x = demogProj r := by
  unfold get_demographic_table
  simp only [List.mem_map, List.mem_filter]
  constructor
  · rintro ⟨r, ⟨⟨hr, hstrata⟩, hfilter⟩, hproj⟩
    refine ⟨r, hr, List.elem_iff.mp hstrata, ?_, hproj.symm⟩
    rintro ⟨hmeas, hunk⟩
    simp [imdUnknown, hmeas, hunk] at hfilter
  · rintro ⟨r, hr, hstrata, hnot, hproj⟩
    refine ⟨r, ⟨⟨hr, List.elem_iff.mpr hstrata⟩, ?_⟩, hproj.symm⟩
    simp only [imdUnknown, Bool.not_eq_true', Bool.and_eq_false_iff, beq_eq_false_iff_ne,
      ne_eq]
    tauto

/-- C10: a `by_IMD` row whose IMD value is null is retained in the
demographic table — the filter fills null with the empty string before the
comparison against "unknown", so rows with a missing IMD field are never
dropped. -/
theorem claim_C10_null_imd_retained (rows : List MRow) (r : MRow)
    (hr : r ∈ rows) (hm : r.measure = "by_IMD") (hI : r.IMD = none) :
    demogProj r ∈ get_demographic_table rows := by
  rw [claim_C5_imd_filter_scoped]
  refine ⟨r, hr, by simp [hm, demograph_strata], ?_, rfl⟩
  rintro ⟨-, hunk⟩
  rw [hI] at hunk
  revert hunk
  decide

/-- Witness for C10 at a concrete row: a `by_IMD` row with a null IMD value
is kept. -/
theorem claim_C10_null_imd_retained_witness :
    demogProj { row0 with measure := "by_IMD", IMD := none } ∈
      get_demographic_table [{ row0 with measure := "by_IMD", IMD := none }] :=
  claim_C10_null_imd_retained _ _ (List.mem_singleton.mpr rfl) rfl rfl

/-- The zero-pattern mask holds exactly on strings made of the digit `0` and
one decimal point. -/
theorem dotPattern_chars (l : List Char) :
    (l.filter (fun c => !(c == '0')) = ['.']) ↔
      ((∀ c ∈ l, c = '0' ∨ c = '.') ∧ l.count '.' = 1) := by
  induction l with
  | nil => simp
  | cons a l ih =>
    rcases eq_or_ne a '0' with ha | ha
    · subst ha
      simp only [List.filter_cons, List.count_cons, List.mem_cons]
      simpa using ih
    · have ha' : (!(a == '0')) = true := by simpa using ha
      simp only [List.filter_cons, ha', if_pos, List.count_cons, List.mem_cons]
      rw [List.cons_eq_cons]
      constructor
      · rintro ⟨rfl, hrest⟩
        have hall : ∀ c ∈ l, c = '0' := by
          intro c hc
          by_contra hc0
          have : c ∈ l.filter (fun c => !(c == '0')) :=
            List.mem_filter.mpr ⟨hc, by simpa using hc0⟩
          simp [hrest] at this
        refine ⟨?_, ?_⟩
        · rintro c (rfl | hc)
          · exact Or.inr rfl
          · exact Or.inl (hall c hc)
        · have : l.count '.' = 0 := by
            rw [List.count_eq_zero]
            intro hdot
            exact absurd (hall '.' hdot) (by decide)
          simp [this]
      · rintro ⟨hall, hcount⟩
        have hadot : a = '.' := by
          rcases hall a (Or.inl rfl) with h | h
          · exact absurd h ha
          · exact h
        subst hadot
        simp only [beq_self_eq_true, if_pos, Nat.add_eq_zero] at hcount
        have hcount' : l.count '.' = 0 := by omega
        refine ⟨rfl, ?_⟩
        rw [List.filter_eq_nil_iff]
        intro c hc
        rcases hall c (Or.inr hc) with h | h
        · simp [h]
        · rw [List.count_eq_zero] at hcount'
          exact absurd (h ▸ hc) hcount'

/-- C1: when the per-code table has more than one row, each proportion
string consisting only of the digit `0` and a single decimal point is
replaced by `"< 0.005"` and each proportion string beginning with `"100."`
is replaced by `"> 99.995"`; when the table has exactly one row neither
clamp is applied and the proportion strings are left unchanged. -/
theorem claim_C1_proportion_clamps :
    (∀ t : List CodeRow, 1 < t.length → applyClamps t =
      t.map (fun r => { r with prop :=
        (if isDotPattern r.prop then "< 0.005"
         else if pyStarts r.prop "100." then "> 99.995" else r.prop) })) ∧
    (∀ r : CodeRow, applyClamps [r] = [r]) ∧
    (∀ s : String, isDotPattern s = true ↔
      ((∀ c ∈ s.data, c = '0' ∨ c = '.') ∧ s.data.count '.' = 1)) := by
  refine ⟨?_, ?_, ?_⟩
  · intro t ht
    rw [applyClamps, if_pos ht, List.map_map]
    refine List.map_congr_left ?_
    intro r _
    cases hd : isDotPattern r.prop with
    | false => simp [Function.comp, clampLow, clampHigh, hd]
    | true =>
      have h5 : pyStarts "< 0.005" "100." = false := by decide
      simp [Function.comp, clampLow, clampHigh, hd, h5]
  · intro r
    rw [applyClamps, if_neg (by simp)]
  · intro s
    rw [isDotPattern, beq_iff_eq, stripZeros]
    rw [show ("." : String) = ⟨['.']⟩ from rfl]
    rw [String.ext_iff]
    exact dotPattern_chars s.data

/-- Witness for C1: a two-row table with an apparent-zero proportion and a
proportion starting `"100."` has both clamps applied. -/
theorem claim_C1_proportion_clamps_witness :
    1 < ([⟨"a", 1, none, "0.0"⟩, ⟨"b", 199, some "d", "100.0"⟩] : List CodeRow).length ∧
    applyClamps [⟨"a", 1, none, "0.0"⟩, ⟨"b", 199, some "d", "100.0"⟩] =
      [⟨"a", 1, none, "< 0.005"⟩, ⟨"b", 199, some "d", "> 99.995"⟩] := by
  refine ⟨by decide, ?_⟩
  rw [claim_C1_proportion_clamps.1 _ (by decide)]
  decide

/- ---------------- TableReshaper: _get_deciles_table -------------------- -/

/-- Label constant `PERCENTILE` from `app/measures.py`. -/
def PERCENTILE : String := "Percentile"

/-- Label constant `DECILE` from `app/measures.py`. -/
def DECILE : String := "Decile"

/-- Label constant `MEDIAN` from `app/measures.py`. -/
def MEDIAN : String := "Median"

/-- One row of a deciles CSV as re-read by the presentation side. -/
structure DRow where
  date : ℤ
  percentile : ℤ
  value : ℚ
deriving DecidableEq

/-- A deciles row with the reconstructed `label` column. -/
structure LRow where
  date : ℤ
  percentile : ℤ
  value : ℚ
  label : String
deriving DecidableEq

/-- The three sequential label assignments of `_get_deciles_table`:
`label = PERCENTILE` everywhere, then `DECILE` where
`(percentile != 0) & (percentile != 100) & (percentile % 10 == 0)`, then
`MEDIAN` where `percentile == 50` (last assignment wins). -/
def relabel (p : ℤ) : String :=
  let l := PERCENTILE
  let l := if p ≠ 0 ∧ p ≠ 100 ∧ p % 10 = 0 then DECILE else l
  let l := if p = 50 then MEDIAN else l
  l

/-- `_get_deciles_table` after the CSV read: assign labels, divide `value`
by 10 unless `"hba1c_diab_mean_tests"` occurs in the table's url, then drop
the rows still labeled `PERCENTILE`. -/
def reshapeDeciles (deciles_table_url : String) (rows : List DRow) : List LRow :=
  let t := rows.map (fun r => LRow.mk r.date r.percentile r.value (relabel r.percentile))
  let t := if pyIn "hba1c_diab_mean_tests" deciles_table_url then t
           else t.map (fun r => { r with value := r.value / 10 })
  t.filter (fun r => !(r.label == PERCENTILE))

/-- Every label produced by the assignment chain is one of the three
constants. -/
theorem relabel_cases (p : ℤ) :
    relabel p = PERCENTILE ∨ relabel p = DECILE ∨ relabel p = MEDIAN := by
  by_cases h50 : p = 50
  · right; right; simp [relabel, h50]
  · by_cases hd : p ≠ 0 ∧ p ≠ 100 ∧ p % 10 = 0
    · right; left; simp [relabel, hd, h50]
    · left
      unfold relabel
      simp only [if_neg h50, if_neg hd]

/-- Closed form of the reshaped deciles table: one map followed by the
Percentile-dropping filter. -/
theorem reshapeDeciles_eq (url : String) (rows : List DRow) :
    reshapeDeciles url rows =
      (rows.map (fun r => LRow.mk r.date r.percentile
          (if pyIn "hba1c_diab_mean_tests" url then r.value else r.value / 10)
          (relabel r.percentile))).filter (fun r => !(r.label == PERCENTILE)) := by
  unfold reshapeDeciles
  cases pyIn "hba1c_diab_mean_tests" url
  · simp only [Bool.false_eq_true, if_false, List.map_map]
    rfl
  · simp

/-- Membership characterisation of the reshaped deciles table. -/
theorem reshapeDeciles_mem (url : String) (rows : List DRow) (x : LRow) :
    x ∈ reshapeDeciles url rows ↔
      ∃ r ∈ rows, relabel r.percentile ≠ PERCENTILE ∧
        x = ⟨r.date, r.percentile,
             (if pyIn "hba1c_diab_mean_tests" url then r.value else r.value / 10),
             relabel r.percentile⟩ := by
  rw [reshapeDeciles_eq]
  simp only [List.mem_filter, List.mem_map, Bool.not_eq_true', beq_eq_false_iff_ne, ne_eq]
  constructor
  · rintro ⟨⟨r, hr, rfl⟩, hlab⟩
    exact ⟨r, hr, hlab, rfl⟩
  · rintro ⟨r, hr, hlab, rfl⟩
    exact ⟨⟨r, hr, rfl⟩, hlab⟩

/-- C6 counterexample: percentile 110 is not a multiple of 10 strictly
between 0 and 100, yet the assignment chain labels it `Decile` and the row
is retained in the reshaped output rather than dropped. -/
theorem claim_C6_counterexample :
    ¬(0 < (110 : ℤ) ∧ (110 : ℤ) < 100) ∧ (110 : ℤ) ≠ 50 ∧
    relabel 110 = DECILE ∧
    (reshapeDeciles "url.csv" [⟨0, 110, 10⟩]).map (fun r => (r.percentile, r.label)) =
      [(110, DECILE)] := by
  refine ⟨by decide, by decide, by decide, ?_⟩
  rfl

/-- C6 amended: rows whose percentile is a multiple of 10 other than 0 and
100 receive label `Decile`, except percentile 50 which receives `Median`
(the later rule wins); rows whose percentile is 0, 100 or not a multiple of
10 keep `Percentile`; and the reshaped output contains only `Decile` and
`Median` rows. -/
theorem claim_C6_labels_amended :
    (∀ p : ℤ, p % 10 = 0 → p ≠ 0 → p ≠ 100 →
      relabel p = (if p = 50 then MEDIAN else DECILE)) ∧
    (∀ p : ℤ, p % 10 ≠ 0 ∨ p = 0 ∨ p = 100 → relabel p = PERCENTILE) ∧
    (∀ url rows x, x ∈ reshapeDeciles url rows → x.label = DECILE ∨ x.label = MEDIAN) := by
  refine ⟨?_, ?_, ?_⟩
  · intro p h10 h0 h100
    by_cases h50 : p = 50
    · simp [relabel, h50]
    · rw [if_neg h50]
      unfold relabel
      simp only [if_neg h50, if_pos (⟨h0, h100, h10⟩ : p ≠ 0 ∧ p ≠ 100 ∧ p % 10 = 0)]
  · intro p h
    have h50 : p ≠ 50 := by rintro rfl; rcases h with h | h | h <;> omega
    have hd : ¬(p ≠ 0 ∧ p ≠ 100 ∧ p % 10 = 0) := by
      rcases h with h | h | h
      · rintro ⟨-, -, h10⟩; exact h h10
      · rintro ⟨h0, -, -⟩; exact h0 h
      · rintro ⟨-, h100, -⟩; exact h100 h
    unfold relabel
    simp only [if_neg h50, if_neg hd]
  · intro url rows x hx
    rw [reshapeDeciles_mem url rows x] at hx
    obtain ⟨r, hr, hlab, rfl⟩ := hx
    rcases relabel_cases r.percentile with h | h | h
    · exact absurd h hlab
    · exact Or.inl h
    · exact Or.inr h

/-- Witness for the amended C6: percentile 50 ends as `Median` and
percentile 0 keeps `Percentile`. -/
theorem claim_C6_labels_amended_witness :
    relabel 50 = MEDIAN ∧ relabel 0 = PERCENTILE := by
  constructor
  · have h := claim_C6_labels_amended.1 50 (by decide) (by decide) (by decide)
    simpa using h
  · exact claim_C6_labels_amended.2.1 0 (Or.inr (Or.inl rfl))

/-- C7: on deciles re-read every retained row carries its input value
divided by 10, except when the table's url names the `hba1c_diab_mean_tests`
measure, in which case the value is unchanged; the exemption depends only
on the measure's url and no other rescaling is applied. -/
theorem claim_C7_deciles_value_rescaling :
    (∀ url rows x, x ∈ reshapeDeciles url rows →
      ∃ r ∈ rows, x.date = r.date ∧ x.percentile = r.percentile ∧
        x.value = (if pyIn "hba1c_diab_mean_tests" url then r.value else r.value / 10)) ∧
    (∀ url rows (r : DRow), r ∈ rows → relabel r.percentile ≠ PERCENTILE →
      (⟨r.date, r.percentile,
        (if pyIn "hba1c_diab_mean_tests" url then r.value else r.value / 10),
        relabel r.percentile⟩ : LRow) ∈ reshapeDeciles url rows) := by
  constructor
  · intro url rows x hx
    rw [reshapeDeciles_mem url rows x] at hx
    obtain ⟨r, hr, hlab, rfl⟩ := hx
    exact ⟨r, hr, rfl, rfl, rfl⟩
  · intro url rows r hr hlab
    rw [reshapeDeciles_mem]
    exact ⟨r, hr, hlab, rfl⟩

/-- Witness for C7: a median row keeps its value under the exempt url and
is divided by 10 under any other url. -/
theorem claim_C7_deciles_value_rescaling_witness :
    (⟨0, 50, 7, MEDIAN⟩ : LRow) ∈
      reshapeDeciles "out/hba1c_diab_mean_tests/d.csv" [⟨0, 50, 7⟩] ∧
    (⟨0, 50, 7 / 10, MEDIAN⟩ : LRow) ∈ reshapeDeciles "out/chol/d.csv" [⟨0, 50, 7⟩] := by
  constructor
  · have h := claim_C7_deciles_value_rescaling.2 "out/hba1c_diab_mean_tests/d.csv"
      [⟨0, 50, 7⟩] ⟨0, 50, 7⟩ (by simp) (by decide)
    have hc : pyIn "hba1c_diab_mean_tests" "out/hba1c_diab_mean_tests/d.csv" = true := by decide
    simpa [hc, relabel] using h
  · have h := claim_C7_deciles_value_rescaling.2 "out/chol/d.csv"
      [⟨0, 50, 7⟩] ⟨0, 50, 7⟩ (by simp) (by decide)
    have hc : pyIn "hba1c_diab_mean_tests" "out/chol/d.csv" = false := by decide
    simpa [hc, relabel] using h

/- ---------------- MeasureAssembler / MeasureRepository ----------------- -/

/-- A catalog record from `measures.yaml`: the fields read by
`OSJobsRepository._construct`.  The `measures_tables_url` key may be absent
from a record, modelled by `Option`. -/
structure CatalogRecord where
  name : String
  explanation : String
  design : String
  caveats : String
  codelist_url : String
  chart_units : String
  counts_table_url : String
  top_5_codes_table_url : String
  deciles_table_url : String
  measures_tables_url : Option String
deriving DecidableEq

/-- The assembled `Measure` record, generic over the fetched-table type `α`
(table fetching and CSV parsing are external I/O collaborators). -/
structure MeasureRec (α : Type) where
  name : String
  explanation : String
  design : String
  caveats : String
  codelist_url : String
  total_events : ℤ
  top_5_codes_table : α
  deciles_table : α
  chart_units : String
  measures_tables : List (String × α)

/-- `OSJobsRepository._construct`: fetch the counts, top-5-codes and deciles
artifacts, fetch and split the demographic tables only when the record has a
`measures_tables_url` key (otherwise `dict()`), and assemble the `Measure`.
The second component records every url passed to the fetch capability, in
call order. -/
def construct {α : Type} (fetch : String → α) (getTotal : α → ℤ)
    (splitTables : α → List (String × α)) (record : CatalogRecord) :
    MeasureRec α × List String :=
  let counts := fetch record.counts_table_url
  let top5 := fetch record.top_5_codes_table_url
  let dec := fetch record.deciles_table_url
  match record.measures_tables_url with
  | some u =>
      (⟨record.name, record.explanation, record.design, record.caveats,
        record.codelist_url, getTotal counts, top5, dec, record.chart_units,
        splitTables (fetch u)⟩,
       [record.counts_table_url, record.top_5_codes_table_url,
        record.deciles_table_url, u])
  | none =>
      (⟨record.name, record.explanation, record.design, record.caveats,
        record.codelist_url, getTotal counts, top5, dec, record.chart_units,
        []⟩,
       [record.counts_table_url, record.top_5_codes_table_url,
        record.deciles_table_url])

/-- `OSJobsRepository.get`: look up the cache; on a miss run `_construct`
(whose artifact fetches may raise, modelled by `Except`) and store the
result only when construction succeeds.  Returns the result, the cache
after the call, and the names for which construction was attempted. -/
def repoGet {E M : Type} (build : String → Except E M)
    (cache : List (String × M)) (name : String) :
    Except E M × List (String × M) × List String :=
  match cache.lookup name with
  | some m => (Except.ok m, cache, [])
  | none =>
    match build name with
    | Except.ok m => (Except.ok m, (name, m) :: cache, [name])
    | Except.error e => (Except.error e, cache, [name])

/-- C8: when a catalog record has no demographic-tables reference, the
assembled measure carries an empty demographic-tables mapping (not an error
and not a null), and only the three non-demographic artifact urls are ever
fetched. -/
theorem claim_C8_missing_demographics {α : Type} (fetch : String → α)
    (getTotal : α → ℤ) (splitTables : α → List (String × α))
    (record : CatalogRecord) (h : record.measures_tables_url = none) :
    (construct fetch getTotal splitTables record).1.measures_tables = [] ∧
    (construct fetch getTotal splitTables record).2 =
      [record.counts_table_url, record.top_5_codes_table_url,
       record.deciles_table_url] := by
  unfold construct
  rw [h]
  exact ⟨rfl, rfl⟩

/-- Witness for C8 at a concrete record with no demographic-tables key. -/
theorem claim_C8_missing_demographics_witness :
    (construct (fun _ => (0 : ℕ)) (fun _ => 0) (fun _ => [])
      ⟨"m", "e", "d", "c", "cl", "u", "counts.csv", "top5.csv", "dec.csv", none⟩).1.measures_tables
      = [] ∧
    (construct (fun _ => (0 : ℕ)) (fun _ => 0) (fun _ => [])
      ⟨"m", "e", "d", "c", "cl", "u", "counts.csv", "top5.csv", "dec.csv", none⟩).2
      = ["counts.csv", "top5.csv", "dec.csv"] :=
  claim_C8_missing_demographics (fun _ => (0 : ℕ)) (fun _ => 0) (fun _ => [])
    ⟨"m", "e", "d", "c", "cl", "u", "counts.csv", "top5.csv", "dec.csv", none⟩ rfl

/-- C9: a failed construction propagates the error and leaves the cache
unchanged (so a later `get` constructs afresh); a successful construction is
cached, and every later `get` of that name returns the cached measure
without attempting construction again; a cache hit never constructs. -/
theorem claim_C9_get_cache_discipline {E M : Type} (build : String → Except E M)
    (cache : List (String × M)) (name : String) :
    (∀ e, cache.lookup name = none → build name = Except.error e →
      repoGet build cache name = (Except.error e, cache, [name])) ∧
    (∀ m, cache.lookup name = none → build name = Except.ok m →
      repoGet build cache name = (Except.ok m, (name, m) :: cache, [name]) ∧
      repoGet build ((name, m) :: cache) name = (Except.ok m, (name, m) :: cache, [])) ∧
    (∀ m, cache.lookup name = some m →
      repoGet build cache name = (Except.ok m, cache, [])) := by
  refine ⟨?_, ?_, ?_⟩
  · intro e hmiss herr
    unfold repoGet
    rw [hmiss, herr]
  · intro m hmiss hok
    constructor
    · unfold repoGet
      rw [hmiss, hok]
    · unfold repoGet
      simp [List.lookup]
  · intro m hhit
    unfold repoGet
    rw [hhit]

/-- Witness for C9 at concrete instances: a failing build on an empty cache
propagates the error with the cache unchanged, and a succeeding build is
cached and then hit. -/
theorem claim_C9_get_cache_discipline_witness :
    repoGet (fun _ => (Except.error "boom" : Except String ℕ)) [] "m" =
      (Except.error "boom", [], ["m"]) ∧
    repoGet (fun _ => (Except.ok 7 : Except String ℕ)) [] "m" =
      (Except.ok 7, [("m", 7)], ["m"]) ∧
    repoGet (fun _ => (Except.ok 7 : Except String ℕ)) [("m", 7)] "m" =
      (Except.ok 7, [("m", 7)], []) := by
  refine ⟨?_, ?_, ?_⟩
  · exact (claim_C9_get_cache_discipline (fun _ => Except.error "boom") [] "m").1 "boom" rfl rfl
  · exact ((claim_C9_get_cache_discipline (fun _ => Except.ok 7) [] "m").2.1 7 rfl rfl).1
  · exact ((claim_C9_get_cache_discipline (fun _ => Except.ok 7) [] "m").2.1 7 rfl rfl).2

/- ---------------- DecilesAggregator (get_deciles_table) ---------------- -/

/-- Ordered insertion by `le` (building block of the sorts used below). -/
def insertOrd {α : Type} (le : α → α → Bool) (a : α) : List α → List α
  | [] => [a]
  | b :: l => if le a b then a :: b :: l else b :: insertOrd le a l

/-- Sorting by `le` (models pandas' ascending/descending value and index
sorts, whose output order on ties is irrelevant to the values read off). -/
def sortOrd {α : Type} (le : α → α → Bool) : List α → List α
  | [] => []
  | a :: l => insertOrd le a (sortOrd le l)

theorem insertOrd_perm {α : Type} (le : α → α → Bool) (a : α) (l : List α) :
    (insertOrd le a l).Perm (a :: l) := by
  induction l with
  | nil => exact List.Perm.refl _
  | cons b t ih =>
    unfold insertOrd
    split
    · exact List.Perm.refl _
    · exact (List.Perm.cons b ih).trans (List.Perm.swap a b t)

theorem sortOrd_perm {α : Type} (le : α → α → Bool) (l : List α) :
    (sortOrd le l).Perm l := by
  induction l with
  | nil => exact List.Perm.refl _
  | cons a t ih => exact (insertOrd_perm le a (sortOrd le t)).trans (List.Perm.cons a ih)

theorem insertOrd_pairwise {α : Type} (le : α → α → Bool)
    (htrans : ∀ a b c, le a b = true → le b c = true → le a c = true)
    (htot : ∀ a b, le a b = true ∨ le b a = true) (a : α) (l : List α)
    (hl : l.Pairwise (fun x y => le x y = true)) :
    (insertOrd le a l).Pairwise (fun x y => le x y = true) := by
  induction l with
  | nil => simp [insertOrd]
  | cons b t ih =>
    rcases List.pairwise_cons.mp hl with ⟨hb, ht⟩
    unfold insertOrd
    split
    · rename_i hab
      refine List.pairwise_cons.mpr ⟨?_, hl⟩
      intro x hx
      rcases List.mem_cons.mp hx with rfl | hx
      · exact hab
      · exact htrans a b x hab (hb x hx)
    · rename_i hab
      have hba : le b a = true := by
        rcases htot a b with h | h
        · exact absurd h hab
        · exact h
      refine List.pairwise_cons.mpr ⟨?_, ih ht⟩
      intro x hx
      have hx' : x ∈ a :: t := (insertOrd_perm le a t).mem_iff.mp hx
      rcases List.mem_cons.mp hx' with rfl | hx'
      · exact hba
      · exact hb x hx'

theorem sortOrd_pairwise {α : Type} (le : α → α → Bool)
    (htrans : ∀ a b c, le a b = true → le b c = true → le a c = true)
    (htot : ∀ a b, le a b = true ∨ le b a = true) (l : List α) :
    (sortOrd le l).Pairwise (fun x y => le x y = true) := by
  induction l with
  | nil => simp [sortOrd]
  | cons a t ih => exact insertOrd_pairwise le htrans htot a (sortOrd le t) ih

/-- numpy's index rounding for `interpolation="nearest"`: round the virtual
index to the nearest integer, ties to even. -/
def roundHalfEven (q : ℚ) : ℤ :=
  let n := Int.floor q
  if q - n < 1 / 2 then n
  else if 1 / 2 < q - n then n + 1
  else if n % 2 = 0 then n else n + 1

/-- `Series.quantile(q, interpolation="nearest")` on one group's ratio
values: sort ascending and take the element at the virtual position
`q * (n - 1)` rounded to the nearest rank — always an element of the data,
never an interpolation. -/
def quantileNearest (l : List ℚ) (q : ℚ) : Option ℚ :=
  (sortOrd (fun a b => decide (a ≤ b)) l)[(roundHalfEven (q * ((l.length : ℚ) - 1))).toNat]?

/-- A nearest-rank quantile is always one of the observed values. -/
theorem quantileNearest_mem {l : List ℚ} {q r : ℚ}
    (h : quantileNearest l q = some r) : r ∈ l := by
  unfold quantileNearest at h
  obtain ⟨hlt, heq⟩ := List.getElem?_eq_some.mp h
  exact (sortOrd_perm _ l).mem_iff.mp (heq ▸ List.getElem_mem hlt)

/-- The rows kept by `get_deciles_table`: `measure == "by_practice"`, with
NaN-ratio rows dropped; each row contributes its period and ratio. -/
def practicePoints (rows : List MRow) : List (ℤ × ℚ) :=
  (rows.filter (fun r => r.measure == "by_practice")).filterMap
    (fun r => r.ratio.map (fun q => (r.interval_start, q)))

/-- The ratio values of the `groupby("interval_start")` group at period `d`. -/
def observedRatios (rows : List MRow) (d : ℤ) : List ℚ :=
  ((practicePoints rows).filter (fun p => p.1 == d)).map (fun p => p.2)

/-- The group keys of `groupby("interval_start")`, in ascending order. -/
def decilesPeriods (rows : List MRow) : List ℤ :=
  sortOrd (fun a b => decide (a ≤ b)) ((practicePoints rows).map (fun p => p.1)).dedup

/-- The fixed percentile list `range(10, 100, 10)`. -/
def percentileList : List ℕ := [10, 20, 30, 40, 50, 60, 70, 80, 90]

/-- The quantiles half of `get_deciles_table`: one `(date, percentile,
value)` row per period and percentile, where the value is the nearest-rank
quantile of the period's ratios, multiplied by 1000 unless
`"mean" in args.test`. -/
def get_deciles_table (test : String) (rows : List MRow) : List (ℤ × ℕ × ℚ) :=
  (decilesPeriods rows).flatMap (fun d =>
    percentileList.filterMap (fun (p : ℕ) =>
      (quantileNearest (observedRatios rows d) ((p : ℚ) / 100)).map (fun v =>
        (d, p, if pyIn "mean" test then v else 1000 * v))))

/-- Elimination form of membership in the deciles table: every released row
is a scaled nearest-rank quantile of its period's observed ratios. -/
theorem get_deciles_table_mem_elim {test : String} {rows : List MRow}
    {d : ℤ} {p : ℕ} {v : ℚ} (h : (d, p, v) ∈ get_deciles_table test rows) :
    ∃ r, quantileNearest (observedRatios rows d) ((p : ℚ) / 100) = some r ∧
      v = (if pyIn "mean" test then r else 1000 * r) := by
  unfold get_deciles_table at h
  rw [List.mem_flatMap] at h
  obtain ⟨d', _, h⟩ := h
  rw [List.mem_filterMap] at h
  obtain ⟨p', _, h⟩ := h
  rw [Option.map_eq_some'] at h
  obtain ⟨r, hq, heq⟩ := h
  obtain ⟨rfl, rfl, rfl⟩ : d' = d ∧ p' = p ∧
      (if pyIn "mean" test then r else 1000 * r) = v := by
    simpa [Prod.ext_iff] using heq
  exact ⟨r, hq, rfl⟩

/-- Introduction form of membership in the deciles table. -/
theorem get_deciles_table_mem_intro (test : String) (rows : List MRow)
    {d : ℤ} {p : ℕ} {r : ℚ} (hd : d ∈ decilesPeriods rows) (hp : p ∈ percentileList)
    (hq : quantileNearest (observedRatios rows d) ((p : ℚ) / 100) = some r) :
    (d, p, (if pyIn "mean" test then r else 1000 * r)) ∈ get_deciles_table test rows := by
  unfold get_deciles_table
  rw [List.mem_flatMap]
  exact ⟨d, hd, List.mem_filterMap.mpr ⟨p, hp, by rw [hq]; rfl⟩⟩

/-- A one-practice, one-period input with ratio 1/100. -/
def c2row : MRow :=
  { row0 with measure := "by_practice", interval_start := 0,
              ratio := some (1 / 100), practice := some 1 }

theorem c2row_observed : observedRatios [c2row] 0 = [1 / 100] := by
  norm_num [observedRatios, practicePoints, c2row, row0, List.filterMap_cons,
    List.filter_cons]

theorem c2row_periods : decilesPeriods [c2row] = [0] := by
  norm_num [decilesPeriods, practicePoints, c2row, row0, sortOrd, insertOrd]

theorem c2row_quantile : quantileNearest (observedRatios [c2row] 0)
    (((50 : ℕ) : ℚ) / 100) = some (1 / 100) := by
  rw [c2row_observed]
  norm_num [quantileNearest, sortOrd, insertOrd, roundHalfEven]

/-- C2 counterexample: the claim that every released percentile value is a
member of the period's observed ratio set fails for a non-mean run — with a
single observed ratio 1/100 the released value is 10 (the ratio scaled by
1000), which is not in the observed set. -/
theorem claim_C2_counterexample :
    ¬(∀ (test : String) (rows : List MRow) (d : ℤ) (p : ℕ) (v : ℚ),
        (d, p, v) ∈ get_deciles_table test rows → v ∈ observedRatios rows d) := by
  intro hclaim
  have hsc : pyIn "mean" "chol" = false := by decide
  have hmem : ((0 : ℤ), (50 : ℕ), (10 : ℚ)) ∈ get_deciles_table "chol" [c2row] := by
    have h := get_deciles_table_mem_intro "chol" [c2row]
      (by rw [c2row_periods]; norm_num) (by norm_num [percentileList]) c2row_quantile
    rw [hsc] at h
    norm_num at h
    exact h
  have h10 := hclaim "chol" [c2row] 0 50 10 hmem
  rw [c2row_observed] at h10
  norm_num [List.mem_singleton] at h10

/-- C2 amended: every released percentile value is a scaled member of the
period's observed ratio set — the member itself for a mean-style run, and
1000 times a member otherwise; the underlying percentile is never a value
interpolated between two observations. -/
theorem claim_C2_deciles_values_amended (test : String) (rows : List MRow)
    (d : ℤ) (p : ℕ) (v : ℚ) (h : (d, p, v) ∈ get_deciles_table test rows) :
    ∃ r ∈ observedRatios rows d, v = (if pyIn "mean" test then r else 1000 * r) := by
  obtain ⟨r, hq, rfl⟩ := get_deciles_table_mem_elim h
  exact ⟨r, quantileNearest_mem hq, rfl⟩

/-- Witness for the amended C2: in a mean-style run the released median of a
one-ratio period is that ratio itself. -/
theorem claim_C2_deciles_values_amended_witness :
    ∃ r ∈ observedRatios [c2row] 0,
      (1 / 100 : ℚ) = (if pyIn "mean" "hba1c_diab_mean_tests" then r else 1000 * r) := by
  apply claim_C2_deciles_values_amended "hba1c_diab_mean_tests" [c2row] 0 50
  have hsc : pyIn "mean" "hba1c_diab_mean_tests" = true := by decide
  have h := get_deciles_table_mem_intro "hba1c_diab_mean_tests" [c2row]
    (by rw [c2row_periods]; norm_num) (by norm_num [percentileList]) c2row_quantile
  rw [hsc] at h
  simpa using h

/-- The round-trip scenario input: two periods, three practices per period,
with ratios {0.01, 0.02, 0.05} in period 1 and {0.03, 0.04, 0.06} in
period 2. -/
def scRows : List MRow :=
  [{ row0 with measure := "by_practice", interval_start := 1,
               ratio := some (1 / 100), practice := some 1 },
   { row0 with measure := "by_practice", interval_start := 1,
               ratio := some (1 / 50), practice := some 2 },
   { row0 with measure := "by_practice", interval_start := 1,
               ratio := some (1 / 20), practice := some 3 },
   { row0 with measure := "by_practice", interval_start := 2,
               ratio := some (3 / 100), practice := some 1 },
   { row0 with measure := "by_practice", interval_start := 2,
               ratio := some (1 / 25), practice := some 2 },
   { row0 with measure := "by_practice", interval_start := 2,
               ratio := some (3 / 50), practice := some 3 }]

theorem scRows_periods : decilesPeriods scRows = [1, 2] := by
  norm_num [decilesPeriods, practicePoints, scRows, row0, List.filterMap_cons,
    List.dedup_cons_of_mem, List.dedup_cons_of_not_mem, sortOrd, insertOrd]

theorem scRows_obs1 : observedRatios scRows 1 = [1 / 100, 1 / 50, 1 / 20] := by
  norm_num [observedRatios, practicePoints, scRows, row0, List.filterMap_cons,
    List.filter_cons]

theorem scRows_obs2 : observedRatios scRows 2 = [3 / 100, 1 / 25, 3 / 50] := by
  norm_num [observedRatios, practicePoints, scRows, row0, List.filterMap_cons,
    List.filter_cons]

theorem scRows_sorted1 :
    sortOrd (fun a b => decide (a ≤ b)) (observedRatios scRows 1) =
      [1 / 100, 1 / 50, 1 / 20] := by
  rw [scRows_obs1]
  norm_num [sortOrd, insertOrd]

theorem scRows_sorted2 :
    sortOrd (fun a b => decide (a ≤ b)) (observedRatios scRows 2) =
      [3 / 100, 1 / 25, 3 / 50] := by
  rw [scRows_obs2]
  norm_num [sortOrd, insertOrd]

theorem scRows_quantile1 : quantileNearest (observedRatios scRows 1)
    (((50 : ℕ) : ℚ) / 100) = some (1 / 50) := by
  rw [scRows_obs1]
  norm_num [quantileNearest, sortOrd, insertOrd, roundHalfEven]

theorem scRows_quantile2 : quantileNearest (observedRatios scRows 2)
    (((50 : ℕ) : ℚ) / 100) = some (1 / 25) := by
  rw [scRows_obs2]
  norm_num [quantileNearest, sortOrd, insertOrd, roundHalfEven]

theorem scRows_mem_chol1 :
    ((1 : ℤ), (50 : ℕ), (20 : ℚ)) ∈ get_deciles_table "chol" scRows := by
  have hsc : pyIn "mean" "chol" = false := by decide
  have h := get_deciles_table_mem_intro "chol" scRows
    (by rw [scRows_periods]; norm_num) (by norm_num [percentileList]) scRows_quantile1
  rw [hsc] at h
  norm_num at h
  exact h

theorem scRows_mem_chol2 :
    ((2 : ℤ), (50 : ℕ), (40 : ℚ)) ∈ get_deciles_table "chol" scRows := by
  have hsc : pyIn "mean" "chol" = false := by decide
  have h := get_deciles_table_mem_intro "chol" scRows
    (by rw [scRows_periods]; norm_num) (by norm_num [percentileList]) scRows_quantile2
  rw [hsc] at h
  norm_num at h
  exact h

theorem scRows_mem_mean1 :
    ((1 : ℤ), (50 : ℕ), (1 / 50 : ℚ)) ∈
      get_deciles_table "hba1c_diab_mean_tests" scRows := by
  have hsc : pyIn "mean" "hba1c_diab_mean_tests" = true := by decide
  have h := get_deciles_table_mem_intro "hba1c_diab_mean_tests" scRows
    (by rw [scRows_periods]; norm_num) (by norm_num [percentileList]) scRows_quantile1
  rw [hsc] at h
  simpa using h

theorem scRows_mem_mean2 :
    ((2 : ℤ), (50 : ℕ), (1 / 25 : ℚ)) ∈
      get_deciles_table "hba1c_diab_mean_tests" scRows := by
  have hsc : pyIn "mean" "hba1c_diab_mean_tests" = true := by decide
  have h := get_deciles_table_mem_intro "hba1c_diab_mean_tests" scRows
    (by rw [scRows_periods]; norm_num) (by norm_num [percentileList]) scRows_quantile2
  rw [hsc] at h
  simpa using h

/-- C3: every released percentile value is the nearest-rank quantile of its
period's observed ratios, multiplied by 1000 unless the run is a mean-style
measure; in the 2-period, 3-practice scenario the percentile-50 rows carry
1000 times the middle observed ratio of each period (0.02 and 0.04), and
the mean-style run carries the unscaled middle values. -/
theorem claim_C3_per1000_scaling :
    (∀ (test : String) (rows : List MRow) (d : ℤ) (p : ℕ) (v : ℚ),
      (d, p, v) ∈ get_deciles_table test rows →
      ∃ r, quantileNearest (observedRatios rows d) ((p : ℚ) / 100) = some r ∧
        v = (if pyIn "mean" test then r else 1000 * r)) ∧
    (((1 : ℤ), (50 : ℕ), (20 : ℚ)) ∈ get_deciles_table "chol" scRows ∧
     ((2 : ℤ), (50 : ℕ), (40 : ℚ)) ∈ get_deciles_table "chol" scRows) ∧
    (((1 : ℤ), (50 : ℕ), (1 / 50 : ℚ)) ∈ get_deciles_table "hba1c_diab_mean_tests" scRows ∧
     ((2 : ℤ), (50 : ℕ), (1 / 25 : ℚ)) ∈ get_deciles_table "hba1c_diab_mean_tests" scRows) ∧
    (sortOrd (fun a b => decide (a ≤ b)) (observedRatios scRows 1) =
       [1 / 100, 1 / 50, 1 / 20] ∧
     sortOrd (fun a b => decide (a ≤ b)) (observedRatios scRows 2) =
       [3 / 100, 1 / 25, 3 / 50]) :=
  ⟨fun _ _ _ _ _ h => get_deciles_table_mem_elim h,
   ⟨scRows_mem_chol1, scRows_mem_chol2⟩,
   ⟨scRows_mem_mean1, scRows_mem_mean2⟩,
   ⟨scRows_sorted1, scRows_sorted2⟩⟩

/-- Witness for C3: the general component applied at the period-1
percentile-50 row of the non-mean scenario run. -/
theorem claim_C3_per1000_scaling_witness :
    ∃ r, quantileNearest (observedRatios scRows 1) (((50 : ℕ) : ℚ) / 100) = some r ∧
      (20 : ℚ) = (if pyIn "mean" "chol" then r else 1000 * r) :=
  claim_C3_per1000_scaling.1 "chol" scRows 1 50 20 scRows_mem_chol1

/- ---------------- EventCodeAggregator: event counts -------------------- -/

/-- Event counts live in the `denominator` column when `"mean" in
args.test`, and in the `numerator` column otherwise. -/
def eventsCol (test : String) (r : MRow) : ℕ :=
  if pyIn "mean" test then r.denominator else r.numerator

/-- A pandas `groupby(key)[val].sum()`: one `(key, summed value)` pair per
distinct key (group order is irrelevant to the totals read off). -/
def groupSums {α K : Type} [DecidableEq K] (key : α → K) (val : α → ℕ)
    (l : List α) : List (K × ℕ) :=
  ((l.map key).dedup).map
    (fun k => (k, ((l.filter (fun a => key a == k)).map val).sum))

theorem sum_filter_split {α : Type} (p : α → Bool) (f : α → ℕ) (l : List α) :
    ((l.filter p).map f).sum + ((l.filter (fun a => !p a)).map f).sum =
      (l.map f).sum := by
  induction l with
  | nil => simp
  | cons a t ih => cases hp : p a <;> simp [List.filter_cons, hp] <;> omega

theorem sum_fiberwise {α K : Type} [DecidableEq K] (key : α → K) (val : α → ℕ)
    (keys : List K) :
    ∀ l : List α, keys.Nodup → (∀ a ∈ l, key a ∈ keys) →
      (keys.map (fun k => ((l.filter (fun a => key a == k)).map val).sum)).sum =
        (l.map val).sum := by
  induction keys with
  | nil =>
    intro l _ hcov
    have hl : l = [] := by
      cases l with
      | nil => rfl
      | cons a t => exact absurd (hcov a (List.mem_cons_self a t)) (by simp)
    subst hl
    simp
  | cons k ks ih =>
    intro l hnd hcov
    rcases List.nodup_cons.mp hnd with ⟨hknotin, hndks⟩
    have hfib : ∀ k' ∈ ks,
        ((l.filter (fun a => key a == k')).map val).sum =
          (((l.filter (fun a => !(key a == k))).filter
              (fun a => key a == k')).map val).sum := by
      intro k' hk'
      have hkk : k' ≠ k := by rintro rfl; exact hknotin hk'
      rw [List.filter_filter]
      refine congrArg List.sum (congrArg (List.map val) (List.filter_congr ?_))
      intro a _
      cases hak : key a == k
      · simp
      · have hak' : key a = k := by simpa using hak
        have : (key a == k') = false := by
          simp only [beq_eq_false_iff_ne, ne_eq, hak']
          exact fun h => hkk h.symm
        simp [this, hak]
    rw [List.map_cons, List.sum_cons, List.map_congr_left hfib,
      ih (l.filter (fun a => !(key a == k))) hndks ?_]
    · exact sum_filter_split (fun a => key a == k) val l
    · intro a ha
      rcases List.mem_filter.mp ha with ⟨hal, hne⟩
      rcases List.mem_cons.mp (hcov a hal) with h | h
      · rw [h] at hne
        simp at hne
      · exact h

/-- The grand total of a grouped sum equals the ungrouped total. -/
theorem groupSums_total {α K : Type} [DecidableEq K] (key : α → K)
    (val : α → ℕ) (l : List α) :
    ((groupSums key val l).map (fun p => p.2)).sum = (l.map val).sum := by
  unfold groupSums
  rw [List.map_map]
  exact sum_fiberwise key val ((l.map key).dedup) l (List.nodup_dedup _)
    (fun a ha => List.mem_dedup.mpr (List.mem_map_of_mem _ ha))

/-- A key-filtered slice of a grouped sum equals the correspondingly
filtered ungrouped sum. -/
theorem groupSums_filter_sum {α K : Type} [DecidableEq K] (key : α → K)
    (val : α → ℕ) (q : K → Bool) (l : List α) :
    (((groupSums key val l).filter (fun p => q p.1)).map (fun p => p.2)).sum =
      ((l.filter (fun a => q (key a))).map val).sum := by
  have hmain := sum_fiberwise key val (((l.map key).dedup).filter (fun k => q k))
    (l.filter (fun a => q (key a)))
    ((List.nodup_dedup _).filter _)
    (fun a ha => by
      rcases List.mem_filter.mp ha with ⟨hal, hqa⟩
      exact List.mem_filter.mpr ⟨List.mem_dedup.mpr (List.mem_map_of_mem _ hal), hqa⟩)
  rw [← hmain]
  unfold groupSums
  rw [List.filter_map, List.map_map]
  apply congrArg List.sum
  apply List.map_congr_left
  intro k hk
  have hqk : q k = true := (List.mem_filter.mp hk).2
  rw [List.filter_filter]
  refine congrArg List.sum (congrArg (List.map val) (List.filter_congr ?_))
  intro a _
  cases hak : key a == k
  · simp
  · have hk' : key a = k := by simpa using hak
    simp [hak, hk', hqk]

/-- The `events` series:
`df.groupby(["snomedct_code", "interval_start"])[events_col].sum()`. -/
def eventsSeries (test : String) (rows : List MRow) : List ((String × ℤ) × ℕ) :=
  groupSums (fun r => (r.snomedct_code, r.interval_start)) (eventsCol test) rows

/-- `events.groupby(level="Date").sum().sort_index(ascending=False)`. -/
def eventsByDateDesc (test : String) (rows : List MRow) : List (ℤ × ℕ) :=
  sortOrd (fun a b => decide (b.1 ≤ a.1))
    (groupSums (fun p => p.1.2) (fun p => p.2) (eventsSeries test rows))

/-- The event-counts table of `get_event_counts_and_top_5_codes_tables`:
`(total_events, events_in_latest_period)`, with `events.sum()` and
`grouped_by_date.iloc[0]` on a non-empty series, and `(0, 0)` when the
`events` series is empty. -/
def eventCounts (test : String) (rows : List MRow) : ℕ × ℕ :=
  if (eventsSeries test rows).isEmpty then (0, 0)
  else
    (((eventsSeries test rows).map (fun p => p.2)).sum,
     match (eventsByDateDesc test rows).head? with
     | some p => p.2
     | none => 0)

/-- The head of a sort is a member dominating every input element. -/
theorem sortOrd_head_le {α : Type} (le : α → α → Bool)
    (htrans : ∀ a b c, le a b = true → le b c = true → le a c = true)
    (htot : ∀ a b, le a b = true ∨ le b a = true) (l : List α) (a : α)
    (h : (sortOrd le l).head? = some a) : a ∈ l ∧ ∀ x ∈ l, le a x = true := by
  have hpw := sortOrd_pairwise le htrans htot l
  have hperm := sortOrd_perm le l
  cases hs : sortOrd le l with
  | nil => rw [hs] at h; cases h
  | cons b t =>
    rw [hs] at h hpw hperm
    have hb : b = a := by simpa using h
    subst hb
    refine ⟨hperm.mem_iff.mp (List.mem_cons_self b t), ?_⟩
    intro x hx
    rcases List.mem_cons.mp (hperm.mem_iff.mpr hx) with rfl | hx'
    · rcases htot x x with hxx | hxx <;> exact hxx
    · exact (List.pairwise_cons.mp hpw).1 x hx'

/-- The grouped `events` series is empty exactly when the input is. -/
theorem eventsSeries_eq_nil_iff (test : String) (rows : List MRow) :
    eventsSeries test rows = [] ↔ rows = [] := by
  constructor
  · intro h
    cases hrow : rows with
    | nil => rfl
    | cons r t =>
      rw [hrow] at h
      unfold eventsSeries groupSums at h
      have hd := List.map_eq_nil_iff.mp h
      have : (r.snomedct_code, r.interval_start) ∈
          (((r :: t).map (fun r => (r.snomedct_code, r.interval_start))).dedup) :=
        List.mem_dedup.mpr (List.mem_map_of_mem _ (List.mem_cons_self r t))
      rw [hd] at this
      cases this
  · rintro rfl; rfl

/-- The dates of the grouped `events` series are the input dates. -/
theorem eventsSeries_dates (test : String) (rows : List MRow) (d : ℤ) :
    (d ∈ (eventsSeries test rows).map (fun p => p.1.2)) ↔
      d ∈ rows.map (fun r => r.interval_start) := by
  unfold eventsSeries groupSums
  rw [List.map_map]
  simp only [List.mem_map, List.mem_dedup, Function.comp_apply]
  constructor
  · rintro ⟨k, ⟨r, hr, rfl⟩, rfl⟩
    exact ⟨r, hr, rfl⟩
  · rintro ⟨r, hr, rfl⟩
    exact ⟨(r.snomedct_code, r.interval_start), ⟨r, hr, rfl⟩, rfl⟩

/-- Every entry of a grouped sum is a key of the input together with its
fiber total. -/
theorem groupSums_mem {α K : Type} [DecidableEq K] {key : α → K} {val : α → ℕ}
    {l : List α} {p : K × ℕ} (h : p ∈ groupSums key val l) :
    p.2 = ((l.filter (fun a => key a == p.1)).map val).sum ∧ p.1 ∈ l.map key := by
  unfold groupSums at h
  rcases List.mem_map.mp h with ⟨k, hk, rfl⟩
  exact ⟨rfl, List.mem_dedup.mp hk⟩

/-- Every key of the input appears in the grouped sum with its fiber total. -/
theorem groupSums_key_mem {α K : Type} [DecidableEq K] (key : α → K)
    (val : α → ℕ) {l : List α} {k : K} (h : k ∈ l.map key) :
    (k, ((l.filter (fun a => key a == k)).map val).sum) ∈ groupSums key val l := by
  unfold groupSums
  exact List.mem_map_of_mem _ (List.mem_dedup.mpr h)

/-- The per-date slice of the `events` series sums to the per-date slice of
the input rows. -/
theorem eventsSeries_date_fiber (test : String) (rows : List MRow) (d : ℤ) :
    (((eventsSeries test rows).filter (fun p => p.1.2 == d)).map
        (fun p => p.2)).sum =
      ((rows.filter (fun r => r.interval_start == d)).map (eventsCol test)).sum :=
  groupSums_filter_sum (fun r : MRow => (r.snomedct_code, r.interval_start))
    (eventsCol test) (fun k => k.2 == d) rows

/-- C4: for every input row set, `total_events` is the sum of the events
column (denominator for mean-style variants, numerator otherwise) over all
rows, `events_in_latest_period` is that sum restricted to the most recent
`interval_start` present, `total_events ≥ events_in_latest_period ≥ 0`, and
both scalars are 0 (not null) on empty input. -/
theorem claim_C4_event_count_invariants (test : String) (rows : List MRow) :
    (eventCounts test rows).1 = (rows.map (eventsCol test)).sum ∧
    (eventCounts test rows).2 ≤ (eventCounts test rows).1 ∧
    0 ≤ (eventCounts test rows).2 ∧
    (rows = [] → eventCounts test rows = (0, 0)) ∧
    (rows ≠ [] → ∃ dmax ∈ rows.map (fun r => r.interval_start),
      (∀ d ∈ rows.map (fun r => r.interval_start), d ≤ dmax) ∧
      (eventCounts test rows).2 =
        ((rows.filter (fun r => r.interval_start == dmax)).map (eventsCol test)).sum) := by
  by_cases hrow : rows = []
  · subst hrow
    exact ⟨rfl, Nat.le_refl _, Nat.zero_le _, fun _ => rfl, fun h => absurd rfl h⟩
  · have hev : eventsSeries test rows ≠ [] :=
      fun h => hrow ((eventsSeries_eq_nil_iff test rows).mp h)
    have hne : ¬((eventsSeries test rows).isEmpty = true) := by
      simpa [List.isEmpty_iff] using hev
    obtain ⟨p0, hp0⟩ : ∃ p, (eventsByDateDesc test rows).head? = some p := by
      unfold eventsByDateDesc
      cases hevs : eventsSeries test rows with
      | nil => exact absurd hevs hev
      | cons q t =>
        cases hg : groupSums (fun p : (String × ℤ) × ℕ => p.1.2) (fun p => p.2) (q :: t) with
        | nil =>
          exfalso
          unfold groupSums at hg
          have hd := List.map_eq_nil_iff.mp hg
          have hmem : q.1.2 ∈ (((q :: t).map (fun x => x.1.2)).dedup) :=
            List.mem_dedup.mpr (List.mem_map_of_mem _ (List.mem_cons_self q t))
          rw [hd] at hmem
          cases hmem
        | cons b s =>
          cases hs : sortOrd (fun a b : ℤ × ℕ => decide (b.1 ≤ a.1)) (b :: s) with
          | nil =>
            exfalso
            have hperm := sortOrd_perm (fun a b : ℤ × ℕ => decide (b.1 ≤ a.1)) (b :: s)
            rw [hs] at hperm
            exact List.cons_ne_nil b s (List.Perm.eq_nil hperm.symm)
          | cons c u => exact ⟨c, rfl⟩
    have htrans : ∀ a b c : ℤ × ℕ, (decide (b.1 ≤ a.1)) = true →
        (decide (c.1 ≤ b.1)) = true → (decide (c.1 ≤ a.1)) = true := by
      intro a b c hab hbc
      simp only [decide_eq_true_eq] at *
      omega
    have htot : ∀ a b : ℤ × ℕ,
        (decide (b.1 ≤ a.1)) = true ∨ (decide (a.1 ≤ b.1)) = true := by
      intro a b
      rcases le_total b.1 a.1 with h | h
      · left; simpa using h
      · right; simpa using h
    have hp0' : (sortOrd (fun a b : ℤ × ℕ => decide (b.1 ≤ a.1))
        (groupSums (fun p : (String × ℤ) × ℕ => p.1.2) (fun p => p.2)
          (eventsSeries test rows))).head? = some p0 := hp0
    obtain ⟨hp0mem, hp0dom⟩ := sortOrd_head_le _ htrans htot _ p0 hp0'
    obtain ⟨hp0fib, hp0key⟩ := groupSums_mem hp0mem
    have hdmem : p0.1 ∈ rows.map (fun r => r.interval_start) :=
      (eventsSeries_dates test rows p0.1).mp hp0key
    have hdommax : ∀ d ∈ rows.map (fun r => r.interval_start), d ≤ p0.1 := by
      intro d hd
      have hd' : d ∈ (eventsSeries test rows).map (fun p => p.1.2) :=
        (eventsSeries_dates test rows d).mpr hd
      have hm := groupSums_key_mem (fun p : (String × ℤ) × ℕ => p.1.2) (fun p => p.2) hd'
      simpa using hp0dom _ hm
    have hfst : (eventCounts test rows).1 = (rows.map (eventsCol test)).sum := by
      unfold eventCounts
      rw [if_neg hne]
      exact groupSums_total _ _ rows
    have hsnd : (eventCounts test rows).2 =
        ((rows.filter (fun r => r.interval_start == p0.1)).map (eventsCol test)).sum := by
      unfold eventCounts
      rw [if_neg hne, hp0]
      show p0.2 = _
      rw [hp0fib]
      exact eventsSeries_date_fiber test rows p0.1
    refine ⟨hfst, ?_, Nat.zero_le _, fun h => absurd h hrow,
      fun _ => ⟨p0.1, hdmem, hdommax, hsnd⟩⟩
    rw [hfst, hsnd]
    have hsplit := sum_filter_split (fun r => r.interval_start == p0.1) (eventsCol test) rows
    omega

/-- Concrete two-row input for the C4 witness: events 3 at date 5 and 4 at
date 7. -/
def c4rows : List MRow :=
  [{ row0 with snomedct_code := "a", interval_start := 5, numerator := 3 },
   { row0 with snomedct_code := "b", interval_start := 7, numerator := 4 }]

/-- Witness for C4 at a concrete input: the totals equation holds and the
latest-period sum is taken at the maximal date. -/
theorem claim_C4_event_count_invariants_witness :
    (eventCounts "chol" c4rows).1 = (c4rows.map (eventsCol "chol")).sum ∧
    (∃ dmax ∈ c4rows.map (fun r => r.interval_start),
      (∀ d ∈ c4rows.map (fun r => r.interval_start), d ≤ dmax) ∧
      (eventCounts "chol" c4rows).2 =
        ((c4rows.filter (fun r => r.interval_start == dmax)).map (eventsCol "chol")).sum) :=
  ⟨(claim_C4_event_count_invariants "chol" c4rows).1,
   (claim_C4_event_count_invariants "chol" c4rows).2.2.2.2 (by decide)⟩
